import Mathlib

/-!
Shallow embedding of the TypeDoc options container
(`src/lib/models/types/type-parameter.ts`, second document: the `Options`
class and its `OptionsReader` interface), together with models of the
collaborators the file imports but whose sources are not part of the
repository snapshot (`convert` and `ParameterScope` from `declaration.ts`,
`insertPrioritySorted` from `array.ts`, the `Result` outcome type from
`result.ts`); those are modelled from the specification and marked as such.
Fallible operations return `Except`; a thrown JavaScript `Error` is the
`Except.error` variant.
-/

/-- Lower-casing of a string (JavaScript `toLowerCase` on the option names
used here), written structurally over the character list so that it
evaluates definitionally. -/
def String.lowercase (s : String) : String := ⟨s.data.map Char.toLower⟩

namespace TypedocOptions

/-- JavaScript runtime values as stored by the options container. A
container (array) value carries an allocation identity `aid` so that
JavaScript strict equality, which compares object references, can be
modelled; a missing object property reads as `undefV`. -/
inductive Value where
  | undefV : Value
  | boolV (b : Bool) : Value
  | num (n : Int) : Value
  | str (s : String) : Value
  | arr (aid : Nat) (elems : List String) : Value
deriving DecidableEq, Repr

/-- JavaScript strict equality: structural on primitives, reference
(identity) comparison on array objects. -/
def strictEq : Value → Value → Bool
  | .undefV, .undefV => true
  | .boolV a, .boolV b => a = b
  | .num a, .num b => a = b
  | .str a, .str b => a = b
  | .arr i _, .arr j _ => i = j
  | _, _ => false

/-- Structural equality on values, ignoring array identity. -/
def structEq : Value → Value → Bool
  | .arr _ a, .arr _ b => a = b
  | v, w => strictEq v w

/-- Modelled from the spec: the scope tag of `declaration.ts` (not under
src/). The Tool scope is `TypeDoc`; the passthrough scope forwarded to the
embedded compiler is `TypeScript`. A declaration's scope field is optional
and an unset scope is treated as `TypeDoc`. -/
inductive ParameterScope where
  | TypeDoc : ParameterScope
  | TypeScript : ParameterScope
deriving DecidableEq, Repr

/-- Modelled from the spec: the closed set of option kinds, each carrying
its own validate-and-convert behaviour (a representative subset: flag,
number, string, and the free-form mixed kind). -/
inductive ParameterKind where
  | flagK : ParameterKind
  | numberK : ParameterKind
  | stringK : ParameterKind
  | mixedK : ParameterKind
deriving DecidableEq, Repr

/-- One option declaration (`DeclarationOption` of `declaration.ts`): the
canonical name with display case preserved, the optional short alias, the
optional scope, the kind descriptor and the default value. The field `oid`
models JavaScript object identity: two declaration objects are the same
object exactly when all fields, `oid` included, agree. -/
structure Decl where
  oid : Nat
  name : String
  short : Option String
  scope : Option ParameterScope
  kind : ParameterKind
  defaultValue : Value
deriving DecidableEq, Repr

/-- Modelled from the spec: `convert` of `declaration.ts` (not under src/),
the per-kind validate-and-convert step dispatching on the declaration's
kind and returning a success or failure outcome. -/
def convert (value : Value) (declaration : Decl) : Except String Value :=
  match declaration.kind with
  | .mixedK => .ok value
  | .flagK =>
    match value with
    | .boolV b => .ok (.boolV b)
    | _ => .error ("Option " ++ declaration.name ++ " expects a boolean value")
  | .numberK =>
    match value with
    | .num n => .ok (.num n)
    | _ => .error ("Option " ++ declaration.name ++ " expects a number value")
  | .stringK =>
    match value with
    | .str s => .ok (.str s)
    | _ => .error ("Option " ++ declaration.name ++ " expects a string value")

/-- Insertion-ordered string-keyed mapping, modelling both the JavaScript
`Map` backing `_declarations` and the plain objects backing `_values` and
`_compilerOptions`: setting an existing key updates it in place, setting a
fresh key appends. -/
def mapSet : List (String × α) → String → α → List (String × α)
  | [], k, v => [(k, v)]
  | p :: rest, k, v => if p.1 = k then (k, v) :: rest else p :: mapSet rest k v

/-- Key lookup in the insertion-ordered mapping. -/
def mapGet : List (String × α) → String → Option α
  | [], _ => none
  | p :: rest, k => if p.1 = k then some p.2 else mapGet rest k

/-- Key removal in the insertion-ordered mapping (`Map.delete`, `delete obj[k]`). -/
def mapDelete : List (String × α) → String → List (String × α)
  | [], _ => []
  | p :: rest, k => if p.1 = k then mapDelete rest k else p :: mapDelete rest k

/-- Reading a property of a JavaScript object: `undefV` when absent. -/
def jsIndex (m : List (String × Value)) (k : String) : Value :=
  (mapGet m k).getD .undefV

/-- An option reader (`OptionsReader`): a named, prioritized source. Its
read action lives outside the core (the reader contract of the spec), so
readers are identified by the tag `rid`, their priority and their name. -/
structure Reader where
  rid : Nat
  priority : Int
  name : String
deriving DecidableEq, Repr

/-- The `Options` container state: the reader list, the case-insensitively
keyed declaration registry, the two scoped value bags, and the diagnostics
the logger has received (`_logger.error` appends one message here). -/
structure Options where
  readers : List Reader
  declarations : List (String × Decl)
  values : List (String × Value)
  compilerOptions : List (String × Value)
  errors : List String
deriving DecidableEq, Repr

/-- A fresh container, before any declaration or reader is added. -/
def emptyOptions : Options := ⟨[], [], [], [], []⟩

/-- `Options.getDeclaration`: case-insensitive lookup by name or short name. -/
def getDeclaration (s : Options) (name : String) : Option Decl :=
  mapGet s.declarations name.lowercase

/-- One iteration of the name loop in `Options.addDeclaration`: an existing
registration referring to a different declaration object logs a conflict,
otherwise the lower-cased key is set to the declaration. -/
def addDeclName (s : Options) (declaration : Decl) (name : String) : Options :=
  match getDeclaration s name with
  | some decl =>
    if decl = declaration then
      { s with declarations := mapSet s.declarations name.lowercase declaration }
    else
      { s with errors := s.errors ++
          ["The option " ++ name ++ " has already been registered"] }
  | none => { s with declarations := mapSet s.declarations name.lowercase declaration }

/-- `Options.addDeclaration`: runs the name loop over the canonical name
and, when present, the short alias, then, whenever the scope is not
`TypeScript`, stores the converted default value under the canonical name;
a default failing conversion throws via `Result.expect`. -/
def addDeclaration (s : Options) (declaration : Decl) : Except String Options :=
  let names := declaration.name :: declaration.short.toList
  let s1 := names.foldl (fun acc n => addDeclName acc declaration n) s
  if declaration.scope ≠ some ParameterScope.TypeScript then
    match convert declaration.defaultValue declaration with
    | .ok v => .ok { s1 with values := mapSet s1.values declaration.name v }
    | .error _ => .error ("Failed to validate default value for " ++ declaration.name)
  else
    .ok s1

/-- The loop of `Options.reset` over the registry entries, recomputing the
value of every declaration whose scope is not `TypeScript` from its
converted default. -/
def resetFold (vals : List (String × Value)) :
    List (String × Decl) → Except String (List (String × Value))
  | [] => .ok vals
  | (_, d) :: rest =>
    if d.scope ≠ some ParameterScope.TypeScript then
      match convert d.defaultValue d with
      | .ok v => resetFold (mapSet vals d.name v) rest
      | .error _ => .error ("Failed to validate default value for " ++ d.name)
    else
      resetFold vals rest

/-- `Options.reset`: recompute every non-TypeScript value from its
declaration's default and clear the compiler-options bag. -/
def reset (s : Options) : Except String Options :=
  match resetFold s.values s.declarations with
  | .ok vals => .ok { s with values := vals, compilerOptions := [] }
  | .error e => .error e

/-- Modelled from the spec: `insertPrioritySorted` of `array.ts` (not under
src/) — inserts the item so that the list stays in ascending-priority
order, an item going after existing items of equal priority (stable ties,
insertion order preserved). -/
def insertPrioritySorted (arr : List Reader) (item : Reader) : List Reader :=
  match arr with
  | [] => [item]
  | x :: xs =>
    if x.priority ≤ item.priority then x :: insertPrioritySorted xs item
    else item :: x :: xs

/-- `Options.addReader`. -/
def addReader (s : Options) (reader : Reader) : Options :=
  { s with readers := insertPrioritySorted s.readers reader }

/-- `Options.removeReaderByName`: removes every reader whose name matches
exactly. -/
def removeReaderByName (s : Options) (name : String) : Options :=
  { s with readers := s.readers.filter (fun r => r.name ≠ name) }

/-- `Options.read` iterates `_readers` in list order, invoking each
reader's read action on the container and the logger; the actions
themselves are external collaborators (the reader contract), so the
embedding exposes the invocation order. -/
def read (s : Options) : List Reader :=
  s.readers

/-- Folding `addReader` over a sequence of readers, starting from the
fresh container. -/
def addReaders (rs : List Reader) : Options :=
  rs.foldl addReader emptyOptions

/-- `Options.removeDeclarationByName`: looks the declaration up
case-insensitively, then deletes the registry keys of its canonical name
and short alias and drops its stored value. -/
def removeDeclarationByName (s : Options) (name : String) : Options :=
  match getDeclaration s name with
  | none => s
  | some declaration =>
    let ds := mapDelete s.declarations declaration.name.lowercase
    let ds := match declaration.short with
      | some sh => mapDelete ds sh.lowercase
      | none => ds
    { s with declarations := ds, values := mapDelete s.values declaration.name }

/-- `Options.tryGetValue`. -/
def tryGetValue (s : Options) (name : String) : Except String Value :=
  match getDeclaration s name with
  | none => .error ("Unknown option '" ++ name ++ "'")
  | some declaration =>
    if declaration.scope = some ParameterScope.TypeScript then
      .error "TypeScript options must be fetched with getCompilerOptions."
    else
      .ok (jsIndex s.values declaration.name)

/-- `Options.getValue`: `tryGetValue` with the error variant rethrown. -/
def getValue (s : Options) (name : String) : Except String Value :=
  match tryGetValue s name with
  | .ok v => .ok v
  | .error e => .error e

/-- `Options.isDefault`: compares `getValue` with the declaration's
recorded `defaultValue` by strict equality; an error thrown by `getValue`
propagates, and the non-null assertion hitting a missing declaration would
be a TypeError. -/
def isDefault (s : Options) (name : String) : Except String Bool :=
  match getValue s name with
  | .error e => .error e
  | .ok v =>
    match getDeclaration s name with
    | some d => .ok (strictEq v d.defaultValue)
    | none => .error "TypeError"

/-- `Options.setValue`: validates and converts the raw value, then stores
the converted value under the declaration's canonical name in the bag
matching the declaration's scope; the second component is the returned
outcome. -/
def setValue (s : Options) (name : String) (value : Value) :
    Options × Except String Unit :=
  match getDeclaration s name with
  | none => (s, .error ("Tried to set an option (" ++ name ++ ") that was not declared."))
  | some declaration =>
    match convert value declaration with
    | .ok v =>
      if declaration.scope = some ParameterScope.TypeScript then
        ({ s with compilerOptions := mapSet s.compilerOptions declaration.name v }, .ok ())
      else
        ({ s with values := mapSet s.values declaration.name v }, .ok ())
    | .error err => (s, .error err)

/-- The entry loop of `Options.setValues`, applying `setValue` per entry
and collecting the errors of the failing keys. -/
def setValuesFold (s : Options) (errs : List String) :
    List (String × Value) → Options × List String
  | [] => (s, errs)
  | (k, v) :: rest =>
    match setValue s k v with
    | (s1, .ok _) => setValuesFold s1 errs rest
    | (s1, .error e) => setValuesFold s1 (errs ++ [e]) rest

/-- `Options.setValues`: failure exactly when the collected error list is
nonempty. -/
def setValues (s : Options) (obj : List (String × Value)) :
    Options × Except (List String) Unit :=
  match setValuesFold s [] obj with
  | (s1, []) => (s1, .ok ())
  | (s1, e :: es) => (s1, .error (e :: es))

/-- Concrete declaration used to exercise re-registration: a number option
named foo with default 1. -/
def C1decl : Decl := ⟨0, "foo", none, none, .numberK, .num 1⟩

/-- Container holding `C1decl` with its value changed to 2 via `setValue`. -/
def C1state : Options :=
  (setValue ((addDeclaration emptyOptions C1decl).toOption.getD emptyOptions)
    "foo" (.num 2)).1

/-- The container after re-registering the identical declaration object. -/
def C1state2 : Options := (addDeclaration C1state C1decl).toOption.getD emptyOptions

/-- Declaration for the reset scenario: number option Foo, default 7. -/
def C4decl : Decl := ⟨0, "Foo", none, none, .numberK, .num 7⟩

/-- Container holding `C4decl` with its value changed to 9 via `setValue`. -/
def C4state : Options :=
  (setValue ((addDeclaration emptyOptions C4decl).toOption.getD emptyOptions)
    "foo" (.num 9)).1

/-- The container after `reset`. -/
def C4after : Options := (reset C4state).toOption.getD emptyOptions

/-- Reader inserted first, priority 300. -/
def C5r0 : Reader := ⟨0, 300, "argv"⟩

/-- Reader inserted second, priority 0. -/
def C5r1 : Reader := ⟨1, 0, "one"⟩

/-- Reader inserted third, priority 200. -/
def C5r2 : Reader := ⟨2, 200, "two"⟩

/-- Reader inserted fourth, priority 0. -/
def C5r3 : Reader := ⟨3, 0, "three"⟩

/-- Declaration for the bulk-set scenario: number option alpha. -/
def C7decl : Decl := ⟨0, "alpha", none, none, .numberK, .num 0⟩

/-- Container holding only `C7decl`. -/
def C7state : Options := (addDeclaration emptyOptions C7decl).toOption.getD emptyOptions

/-- Declaration with an array default (mixed kind, so conversion passes the
array object through unchanged, identity included). -/
def C8decl : Decl := ⟨0, "arrOpt", none, none, .mixedK, .arr 0 ["x"]⟩

/-- Container holding `C8decl` after setting a structurally equal array
with a different identity. -/
def C8state : Options :=
  (setValue ((addDeclaration emptyOptions C8decl).toOption.getD emptyOptions)
    "arrOpt" (.arr 1 ["x"])).1

/-- Declaration with a short alias, for the removal scenario. -/
def C9decl : Decl := ⟨0, "outFile", some "o", none, .stringK, .str ""⟩

/-- Container holding `C9decl`. -/
def C9state : Options := (addDeclaration emptyOptions C9decl).toOption.getD emptyOptions

theorem mapGet_mapSet_self (m : List (String × α)) (k : String) (v : α) :
    mapGet (mapSet m k v) k = some v := by
  induction m with
  | nil => simp [mapSet, mapGet]
  | cons p rest ih =>
    by_cases h : p.1 = k
    · simp [mapSet, h, mapGet]
    · simp [mapSet, h, mapGet, ih]

theorem mapGet_mapSet_ne (m : List (String × α)) {k k' : String} (v : α)
    (h : k' ≠ k) : mapGet (mapSet m k v) k' = mapGet m k' := by
  induction m with
  | nil => simp [mapSet, mapGet, Ne.symm h]
  | cons p rest ih =>
    by_cases hp : p.1 = k
    · simp [mapSet, hp, mapGet, Ne.symm h]
    · simp [mapSet, hp, mapGet, ih]

theorem mapSet_same (m : List (String × α)) (k : String) (v : α)
    (h : mapGet m k = some v) : mapSet m k v = m := by
  induction m with
  | nil => simp [mapGet] at h
  | cons p rest ih =>
    by_cases hp : p.1 = k
    · simp [mapGet, hp] at h
      simp [mapSet, hp]
      cases p
      simp_all
    · simp [mapGet, hp] at h
      simp [mapSet, hp, ih h]

theorem mapGet_mapDelete_self (m : List (String × α)) (k : String) :
    mapGet (mapDelete m k) k = none := by
  induction m with
  | nil => simp [mapDelete, mapGet]
  | cons p rest ih =>
    by_cases hp : p.1 = k
    · simp [mapDelete, hp, ih]
    · simp [mapDelete, hp, mapGet, ih]

theorem mapGet_mapDelete_ne (m : List (String × α)) {k k' : String}
    (h : k' ≠ k) : mapGet (mapDelete m k) k' = mapGet m k' := by
  induction m with
  | nil => simp [mapDelete]
  | cons p rest ih =>
    by_cases hp : p.1 = k
    · rw [show mapDelete (p :: rest) k = mapDelete rest k by simp [mapDelete, hp], ih]
      have : p.1 ≠ k' := by rw [hp]; exact fun hh => h hh.symm
      simp [mapGet, this]
    · simp [mapDelete, hp, mapGet, ih]

theorem mapGet_mem (m : List (String × α)) (k : String) (v : α)
    (h : mapGet m k = some v) : (k, v) ∈ m := by
  induction m with
  | nil => simp [mapGet] at h
  | cons p rest ih =>
    by_cases hp : p.1 = k
    · simp [mapGet, hp] at h
      cases p
      simp_all
    · simp [mapGet, hp] at h
      exact List.mem_cons_of_mem _ (ih h)

theorem addDeclName_same (s : Options) (d : Decl) (n : String)
    (h : getDeclaration s n = some d) : addDeclName s d n = s := by
  have h' : mapGet s.declarations n.lowercase = some d := h
  simp [addDeclName, h, mapSet_same _ _ _ h']

/-- C1 (amended): re-registering the identical declaration object emits no
conflict diagnostic and leaves the registry unchanged, but (for a
declaration whose scope is not TypeScript) it re-runs validate-and-convert
on the default and stores the result, overwriting any value previously set
via setValue. -/
theorem addDeclaration_same_object (s : Options) (d : Decl) (cv : Value)
    (hname : getDeclaration s d.name = some d)
    (hshort : ∀ sh, d.short = some sh → getDeclaration s sh = some d)
    (hscope : d.scope ≠ some ParameterScope.TypeScript)
    (hconv : convert d.defaultValue d = .ok cv) :
    addDeclaration s d = .ok { s with values := mapSet s.values d.name cv } := by
  have hfold : (d.name :: d.short.toList).foldl (fun acc n => addDeclName acc d n) s = s := by
    cases hsh : d.short with
    | none => simp [addDeclName_same s d d.name hname]
    | some sh =>
      simp [List.foldl, addDeclName_same s d d.name hname,
        addDeclName_same s d sh (hshort sh hsh)]
  simp only [addDeclaration, hfold, hscope, if_true, ne_eq, not_false_iff, if_pos, hconv]

/-- C1 witness: the amended statement at the concrete container `C1state`,
whose stored value 2 is overwritten by the converted default 1. -/
theorem addDeclaration_same_object_witness :
    addDeclaration C1state C1decl =
      .ok { C1state with values := mapSet C1state.values "foo" (Value.num 1) } :=
  addDeclaration_same_object C1state C1decl (Value.num 1) rfl
    (fun _ h => Option.noConfusion h) (by decide) rfl

/-- C1 counterexample: re-registering the identical declaration object is
not a no-op on the value store — no conflict diagnostic is emitted and the
registry is unchanged, but the value previously set to 2 via setValue is
reset to the declaration's default 1. -/
theorem addDeclaration_reregister_cex :
    addDeclaration C1state C1decl = .ok C1state2 ∧
    C1state2.errors = C1state.errors ∧
    C1state2.declarations = C1state.declarations ∧
    jsIndex C1state.values "foo" = Value.num 2 ∧
    jsIndex C1state2.values "foo" = Value.num 1 :=
  ⟨rfl, rfl, rfl, rfl, rfl⟩

/-- C3: setValue on an undeclared name fails and leaves the container
unchanged; on a declared name a failed validate-and-convert returns that
failure and changes nothing; on success the converted value is stored
under the declaration's canonical name in the bag matching its scope
(compiler options for TypeScript scope, the values bag otherwise) and
success is returned. -/
theorem setValue_spec (s : Options) (name : String) (value : Value) :
    (getDeclaration s name = none →
      setValue s name value =
        (s, .error ("Tried to set an option (" ++ name ++ ") that was not declared."))) ∧
    ∀ d, getDeclaration s name = some d →
      (∀ e, convert value d = .error e → setValue s name value = (s, .error e)) ∧
      ∀ cv, convert value d = .ok cv →
        (setValue s name value).2 = .ok () ∧
        (d.scope = some ParameterScope.TypeScript →
          (setValue s name value).1 =
            { s with compilerOptions := mapSet s.compilerOptions d.name cv }) ∧
        (d.scope ≠ some ParameterScope.TypeScript →
          (setValue s name value).1 =
            { s with values := mapSet s.values d.name cv }) := by
  refine ⟨fun h => by simp [setValue, h],
    fun d hd => ⟨fun e he => by simp [setValue, hd, he], fun cv hcv => ?_⟩⟩
  by_cases hs : d.scope = some ParameterScope.TypeScript
  · exact ⟨by simp [setValue, hd, hcv, hs], fun _ => by simp [setValue, hd, hcv, hs],
      fun hns => absurd hs hns⟩
  · exact ⟨by simp [setValue, hd, hcv, hs], fun hts => absurd hts hs,
      fun _ => by simp [setValue, hd, hcv, hs]⟩

/-- C3 witness: setting an undeclared option on the fresh container fails
and leaves the container unchanged. -/
theorem setValue_spec_witness :
    setValue emptyOptions "foo" (Value.num 1) =
      (emptyOptions, .error ("Tried to set an option (" ++ "foo" ++ ") that was not declared.")) :=
  (setValue_spec emptyOptions "foo" (Value.num 1)).1 rfl

/-- C6: tryGetValue never raises — it fails with the unknown-option error
when the name is not declared, fails with the wrong-scope error when the
declaration has TypeScript scope, and otherwise succeeds with the value
stored under the declaration's canonical name. -/
theorem tryGetValue_spec (s : Options) (name : String) :
    (getDeclaration s name = none →
      tryGetValue s name = .error ("Unknown option '" ++ name ++ "'")) ∧
    ∀ d, getDeclaration s name = some d →
      (d.scope = some ParameterScope.TypeScript →
        tryGetValue s name =
          .error "TypeScript options must be fetched with getCompilerOptions.") ∧
      (d.scope ≠ some ParameterScope.TypeScript →
        tryGetValue s name = .ok (jsIndex s.values d.name)) := by
  refine ⟨fun h => by simp [tryGetValue, h], fun d hd => ⟨fun hs => ?_, fun hs => ?_⟩⟩
  · simp [tryGetValue, hd, hs]
  · simp [tryGetValue, hd, hs]

/-- C6 witness: an unknown option on the fresh container yields the
unknown-option failure. -/
theorem tryGetValue_spec_witness :
    tryGetValue emptyOptions "missing" = .error ("Unknown option '" ++ "missing" ++ "'") :=
  (tryGetValue_spec emptyOptions "missing").1 rfl

/-- C10: isDefault on a name with no registered declaration propagates the
unknown-option error thrown by getValue (produced by tryGetValue) instead
of returning false. -/
theorem isDefault_unknown (s : Options) (name : String)
    (h : getDeclaration s name = none) :
    isDefault s name = .error ("Unknown option '" ++ name ++ "'") := by
  simp [isDefault, getValue, tryGetValue, h]

/-- C10 witness: isDefault on the fresh container raises the
unknown-option error. -/
theorem isDefault_unknown_witness :
    isDefault emptyOptions "missing" = .error ("Unknown option '" ++ "missing" ++ "'") :=
  isDefault_unknown emptyOptions "missing" rfl

theorem resetFold_cons_write (vals : List (String × Value)) (k : String) (d : Decl)
    (rest : List (String × Decl)) (w : Value)
    (hscope : d.scope ≠ some ParameterScope.TypeScript)
    (hcv : convert d.defaultValue d = .ok w) :
    resetFold vals ((k, d) :: rest) = resetFold (mapSet vals d.name w) rest := by
  simp [resetFold, hscope, hcv]

theorem resetFold_cons_err (vals : List (String × Value)) (k : String) (d : Decl)
    (rest : List (String × Decl)) (e : String)
    (hscope : d.scope ≠ some ParameterScope.TypeScript)
    (hcv : convert d.defaultValue d = .error e) :
    resetFold vals ((k, d) :: rest) =
      .error ("Failed to validate default value for " ++ d.name) := by
  simp [resetFold, hscope, hcv]

theorem resetFold_cons_skip (vals : List (String × Value)) (k : String) (d : Decl)
    (rest : List (String × Decl))
    (hscope : d.scope = some ParameterScope.TypeScript) :
    resetFold vals ((k, d) :: rest) = resetFold vals rest := by
  simp [resetFold, hscope]

theorem resetFold_mapGet (decls : List (String × Decl)) :
    ∀ (vals vals' : List (String × Value)) (n : String) (cv : Value),
    resetFold vals decls = .ok vals' →
    (∀ q : String × Decl, q ∈ decls → (q.2).name = n →
      (q.2).scope ≠ some ParameterScope.TypeScript ∧
        convert (q.2).defaultValue q.2 = .ok cv) →
    (mapGet vals n = some cv ∨ ∃ q : String × Decl, q ∈ decls ∧ (q.2).name = n) →
    mapGet vals' n = some cv := by
  induction decls with
  | nil =>
    intro vals vals' n cv hok hall hinit
    simp [resetFold] at hok
    subst hok
    rcases hinit with h | ⟨q, hq, _⟩
    · exact h
    · simp at hq
  | cons p rest ih =>
    obtain ⟨k, d⟩ := p
    intro vals vals' n cv hok hall hinit
    by_cases hname : d.name = n
    · obtain ⟨hscope, hconv⟩ := hall (k, d) (List.mem_cons_self _ _) hname
      rw [resetFold_cons_write vals k d rest cv hscope hconv] at hok
      exact ih (mapSet vals d.name cv) vals' n cv hok
        (fun q hq hqn => hall q (List.mem_cons_of_mem _ hq) hqn)
        (Or.inl (by rw [hname]; exact mapGet_mapSet_self _ _ _))
    · by_cases hscope : d.scope = some ParameterScope.TypeScript
      · rw [resetFold_cons_skip vals k d rest hscope] at hok
        refine ih vals vals' n cv hok
          (fun q hq hqn => hall q (List.mem_cons_of_mem _ hq) hqn) ?_
        rcases hinit with h | ⟨q, hq, hqn⟩
        · exact Or.inl h
        · rcases List.mem_cons.mp hq with hq1 | hq2
          · refine absurd ((hall q hq hqn).1) ?_
            rw [hq1]
            simpa using hscope
          · exact Or.inr ⟨q, hq2, hqn⟩
      · cases hcv : convert d.defaultValue d with
        | ok w =>
          rw [resetFold_cons_write vals k d rest w hscope hcv] at hok
          refine ih (mapSet vals d.name w) vals' n cv hok
            (fun q hq hqn => hall q (List.mem_cons_of_mem _ hq) hqn) ?_
          rcases hinit with h | ⟨q, hq, hqn⟩
          · exact Or.inl (by rw [mapGet_mapSet_ne _ _ (fun hh => hname hh.symm)]; exact h)
          · rcases List.mem_cons.mp hq with hq1 | hq2
            · exact absurd (by rw [hq1] at hqn; exact hqn) hname
            · exact Or.inr ⟨q, hq2, hqn⟩
        | error e =>
          rw [resetFold_cons_err vals k d rest e hscope hcv] at hok
          cases hok

/-- C4: immediately after a successful reset, the compiler-options bag is
empty and every declared option whose scope is not TypeScript reads back,
through getValue, its declaration's default run through validate-and-convert
(assuming the registry invariant that distinct registered declarations
carry distinct canonical names). -/
theorem reset_defaults (s s' : Options)
    (hok : reset s = .ok s')
    (huniq : ∀ p : String × Decl, p ∈ s.declarations →
      ∀ q : String × Decl, q ∈ s.declarations → (p.2).name = (q.2).name → p.2 = q.2) :
    s'.compilerOptions = [] ∧
    ∀ name d cv, getDeclaration s name = some d →
      d.scope ≠ some ParameterScope.TypeScript →
      convert d.defaultValue d = .ok cv →
      getValue s' name = .ok cv := by
  cases hfold : resetFold s.values s.declarations with
  | error e =>
    rw [reset, hfold] at hok
    cases hok
  | ok vals =>
    rw [reset, hfold] at hok
    have hs' : { s with values := vals, compilerOptions := [] } = s' := by
      injection hok
    subst hs'
    refine ⟨rfl, ?_⟩
    intro name d cv hd hscope hconv
    have hmem : (name.lowercase, d) ∈ s.declarations := mapGet_mem _ _ _ hd
    have hget : mapGet vals d.name = some cv := by
      refine resetFold_mapGet s.declarations s.values vals d.name cv hfold ?_ ?_
      · intro q hq hqn
        rw [huniq q hq (name.lowercase, d) hmem hqn]
        exact ⟨hscope, hconv⟩
      · exact Or.inr ⟨(name.lowercase, d), hmem, rfl⟩
    have hdecl : getDeclaration { s with values := vals, compilerOptions := [] } name = some d := hd
    simp [getValue, tryGetValue, hdecl, hscope, jsIndex, hget]

/-- C4 witness: after resetting the concrete container, whose option Foo
had been set to 9, the compiler bag is empty and getValue (queried with a
different case) returns the converted default 7. -/
theorem reset_defaults_witness :
    C4after.compilerOptions = [] ∧ getValue C4after "foo" = .ok (Value.num 7) := by
  have h := reset_defaults C4state C4after rfl (by decide)
  exact ⟨h.1, h.2 "foo" C4decl (Value.num 7) rfl (by decide) rfl⟩

/-- C8: for a declared option whose scope is not TypeScript, isDefault
succeeds with true exactly when the stored value is identity-equal (strict
comparison) to the declaration's recorded defaultValue; a container value
structurally equal to the default but with a different identity yields
false. -/
theorem isDefault_spec (s : Options) (name : String) (d : Decl)
    (hd : getDeclaration s name = some d)
    (hscope : d.scope ≠ some ParameterScope.TypeScript) :
    (isDefault s name = .ok true ↔
      strictEq (jsIndex s.values d.name) d.defaultValue = true) ∧
    ∀ i j elems, jsIndex s.values d.name = .arr i elems →
      d.defaultValue = .arr j elems → i ≠ j → isDefault s name = .ok false := by
  have hval : isDefault s name = .ok (strictEq (jsIndex s.values d.name) d.defaultValue) := by
    simp [isDefault, getValue, tryGetValue, hd, hscope]
  constructor
  · rw [hval]
    simp
  · intro i j elems hv hdv hij
    rw [hval, hv, hdv]
    simp [strictEq, hij]

/-- C8 witness: a stored array structurally equal to the default array but
allocated separately is reported as non-default. -/
theorem isDefault_spec_witness : isDefault C8state "arrOpt" = .ok false :=
  (isDefault_spec C8state "arrOpt" C8decl rfl (by decide)).2 1 0 ["x"] rfl rfl (by decide)

/-- C9: removeDeclarationByName on a name resolving case-insensitively to
a declaration deletes the registry entries of both the canonical key and,
when present, the short-alias key, and drops the stored value, so a
subsequent direct getValue for that name fails; on an unknown name the
call is a no-op. -/
theorem removeDeclarationByName_spec (s : Options) (name : String) :
    (getDeclaration s name = none → removeDeclarationByName s name = s) ∧
    ∀ d, getDeclaration s name = some d →
      (name.lowercase = d.name.lowercase ∨
        ∃ sh, d.short = some sh ∧ name.lowercase = sh.lowercase) →
      mapGet (removeDeclarationByName s name).declarations d.name.lowercase = none ∧
      (∀ sh, d.short = some sh →
        mapGet (removeDeclarationByName s name).declarations sh.lowercase = none) ∧
      mapGet (removeDeclarationByName s name).values d.name = none ∧
      getValue (removeDeclarationByName s name) name =
        .error ("Unknown option '" ++ name ++ "'") := by
  constructor
  · intro h
    simp [removeDeclarationByName, h]
  · intro d hd hkey
    cases hsh : d.short with
    | none =>
      have hrw : removeDeclarationByName s name =
          { s with declarations := mapDelete s.declarations d.name.lowercase,
                   values := mapDelete s.values d.name } := by
        simp [removeDeclarationByName, hd, hsh]
      have hk : name.lowercase = d.name.lowercase := by
        rcases hkey with h | ⟨sh, hsh2, _⟩
        · exact h
        · rw [hsh] at hsh2
          cases hsh2
      refine ⟨?_, ?_, ?_, ?_⟩
      · rw [hrw]
        exact mapGet_mapDelete_self _ _
      · intro sh h
        exact Option.noConfusion h
      · rw [hrw]
        exact mapGet_mapDelete_self _ _
      · rw [hrw]
        simp [getValue, tryGetValue, getDeclaration, hk, mapGet_mapDelete_self]
    | some sh =>
      have hrw : removeDeclarationByName s name =
          { s with declarations := mapDelete (mapDelete s.declarations d.name.lowercase) sh.lowercase,
                   values := mapDelete s.values d.name } := by
        simp [removeDeclarationByName, hd, hsh]
      have hdn : mapGet (mapDelete (mapDelete s.declarations d.name.lowercase) sh.lowercase)
          d.name.lowercase = none := by
        by_cases hc : d.name.lowercase = sh.lowercase
        · rw [hc]
          exact mapGet_mapDelete_self _ _
        · rw [mapGet_mapDelete_ne _ hc]
          exact mapGet_mapDelete_self _ _
      have hnone : mapGet (mapDelete (mapDelete s.declarations d.name.lowercase) sh.lowercase)
          name.lowercase = none := by
        rcases hkey with h | ⟨sh2, hsh2, h⟩
        · rw [h]
          exact hdn
        · rw [hsh] at hsh2
          injection hsh2 with hsh2
          subst hsh2
          rw [h]
          exact mapGet_mapDelete_self _ _
      refine ⟨?_, ?_, ?_, ?_⟩
      · rw [hrw]
        exact hdn
      · intro sh2 h2
        injection h2 with h2
        subst h2
        rw [hrw]
        exact mapGet_mapDelete_self _ _
      · rw [hrw]
        exact mapGet_mapDelete_self _ _
      · rw [hrw]
        simp [getValue, tryGetValue, getDeclaration, hnone]

/-- C9 witness: removing `C9decl` by its short alias queried with a
different case deletes both registry keys and the stored value, and a
subsequent getValue fails. -/
theorem removeDeclarationByName_spec_witness :
    mapGet (removeDeclarationByName C9state "O").declarations "outfile" = none ∧
    mapGet (removeDeclarationByName C9state "O").values "outFile" = none ∧
    getValue (removeDeclarationByName C9state "O") "O" =
      .error ("Unknown option '" ++ "O" ++ "'") := by
  have h := (removeDeclarationByName_spec C9state "O").2 C9decl rfl
    (Or.inr ⟨"o", rfl, rfl⟩)
  exact ⟨h.1, h.2.2.1, h.2.2.2⟩

theorem mem_insertPrioritySorted {arr : List Reader} {item y : Reader}
    (h : y ∈ insertPrioritySorted arr item) : y = item ∨ y ∈ arr := by
  induction arr with
  | nil =>
    simp [insertPrioritySorted] at h
    exact Or.inl h
  | cons x xs ih =>
    simp only [insertPrioritySorted] at h
    by_cases hc : x.priority ≤ item.priority
    · rw [if_pos hc] at h
      rcases List.mem_cons.mp h with h1 | h2
      · exact Or.inr (by rw [h1]; exact List.mem_cons_self _ _)
      · rcases ih h2 with h3 | h4
        · exact Or.inl h3
        · exact Or.inr (List.mem_cons_of_mem _ h4)
    · rw [if_neg hc] at h
      rcases List.mem_cons.mp h with h1 | h2
      · exact Or.inl h1
      · exact Or.inr h2

theorem insertPrioritySorted_sorted (arr : List Reader) (item : Reader)
    (h : arr.Pairwise (fun a b => a.priority ≤ b.priority)) :
    (insertPrioritySorted arr item).Pairwise (fun a b => a.priority ≤ b.priority) := by
  induction arr with
  | nil => simp [insertPrioritySorted]
  | cons x xs ih =>
    rcases List.pairwise_cons.mp h with ⟨hx, hxs⟩
    by_cases hc : x.priority ≤ item.priority
    · simp only [insertPrioritySorted, if_pos hc]
      refine List.pairwise_cons.mpr ⟨?_, ih hxs⟩
      intro y hy
      rcases mem_insertPrioritySorted hy with h1 | h2
      · rw [h1]
        exact hc
      · exact hx y h2
    · simp only [insertPrioritySorted, if_neg hc]
      refine List.pairwise_cons.mpr ⟨?_, h⟩
      intro y hy
      rcases List.mem_cons.mp hy with h1 | h2
      · rw [h1]
        exact (not_le.mp hc).le
      · exact le_trans (not_le.mp hc).le (hx y h2)

theorem filter_insertPrioritySorted (arr : List Reader) (item : Reader) (p : Int)
    (hs : arr.Pairwise (fun a b => a.priority ≤ b.priority)) :
    (insertPrioritySorted arr item).filter (fun r => r.priority = p) =
      arr.filter (fun r => r.priority = p) ++
        (if item.priority = p then [item] else []) := by
  induction arr with
  | nil =>
    by_cases hip : item.priority = p <;> simp [insertPrioritySorted, hip]
  | cons x xs ih =>
    rcases List.pairwise_cons.mp hs with ⟨hx, hxs⟩
    by_cases hc : x.priority ≤ item.priority
    · simp only [insertPrioritySorted, if_pos hc]
      by_cases hxp : x.priority = p
      · simp [List.filter_cons, hxp, ih hxs]
      · simp [List.filter_cons, hxp, ih hxs]
    · simp only [insertPrioritySorted, if_neg hc]
      by_cases hip : item.priority = p
      · have hnone : (x :: xs).filter (fun r => r.priority = p) = [] := by
          rw [List.filter_eq_nil_iff]
          intro y hy
          have hpy : item.priority < y.priority := by
            rcases List.mem_cons.mp hy with h1 | h2
            · rw [h1]
              exact not_le.mp hc
            · exact lt_of_lt_of_le (not_le.mp hc) (hx y h2)
          rw [← hip] at *
          simpa using (ne_of_gt hpy)
        simp [List.filter_cons, hip, hnone]
      · simp [List.filter_cons, hip]

theorem foldl_addReader_sorted_stable (rs : List Reader) :
    ∀ s : Options, s.readers.Pairwise (fun a b => a.priority ≤ b.priority) →
    (rs.foldl addReader s).readers.Pairwise (fun a b => a.priority ≤ b.priority) ∧
    ∀ p : Int, (rs.foldl addReader s).readers.filter (fun r => r.priority = p) =
      s.readers.filter (fun r => r.priority = p) ++
        rs.filter (fun r => r.priority = p) := by
  induction rs with
  | nil =>
    intro s hs
    exact ⟨hs, fun p => by simp⟩
  | cons r rest ih =>
    intro s hs
    have hsort : (addReader s r).readers.Pairwise (fun a b => a.priority ≤ b.priority) :=
      insertPrioritySorted_sorted s.readers r hs
    obtain ⟨ih1, ih2⟩ := ih (addReader s r) hsort
    refine ⟨ih1, fun p => ?_⟩
    have hstep : (addReader s r).readers = insertPrioritySorted s.readers r := rfl
    rw [List.foldl_cons, ih2 p, hstep, filter_insertPrioritySorted s.readers r p hs,
      List.filter_cons]
    by_cases hrp : r.priority = p <;> simp [hrp]

/-- C5: folding addReader over any insertion sequence yields a reader list
sorted by ascending priority in which equal-priority readers keep their
insertion order (the invocation subsequence at each priority equals the
insertion-order subsequence at that priority); in particular readers
inserted with priorities 300, 0, 200, 0 are invoked by read in priority
order 0, 0, 200, 300 with the two priority-0 readers in insertion order. -/
theorem read_priority_order :
    (∀ rs : List Reader,
      (addReaders rs).readers.Pairwise (fun a b => a.priority ≤ b.priority) ∧
      ∀ p : Int, (addReaders rs).readers.filter (fun r => r.priority = p) =
        rs.filter (fun r => r.priority = p)) ∧
    read (addReaders [C5r0, C5r1, C5r2, C5r3]) = [C5r1, C5r3, C5r2, C5r0] := by
  constructor
  · intro rs
    obtain ⟨h1, h2⟩ := foldl_addReader_sorted_stable rs emptyOptions List.Pairwise.nil
    exact ⟨h1, fun p => by simpa using h2 p⟩
  · rfl

theorem setValuesFold_append (obj : List (String × Value)) :
    ∀ (s : Options) (errs : List String),
    setValuesFold s errs obj =
      ((setValuesFold s [] obj).1, errs ++ (setValuesFold s [] obj).2) := by
  induction obj with
  | nil =>
    intro s errs
    simp [setValuesFold]
  | cons p rest ih =>
    obtain ⟨k, v⟩ := p
    intro s errs
    cases hsv : setValue s k v with
    | mk s1 r =>
      cases r with
      | ok u =>
        simp only [setValuesFold, hsv]
        exact ih s1 errs
      | error e =>
        simp only [setValuesFold, hsv, List.nil_append]
        rw [ih s1 (errs ++ [e]), ih s1 [e]]
        simp

theorem setValues_eq (s : Options) (obj : List (String × Value)) :
    setValues s obj = ((setValuesFold s [] obj).1,
      match (setValuesFold s [] obj).2 with
      | [] => .ok ()
      | e :: es => .error (e :: es)) := by
  unfold setValues
  cases h : setValuesFold s [] obj with
  | mk s1 es =>
    cases es <;> simp

/-- C7: setValues applies setValue to the entries in order and continues
past individual failures: the resulting container is obtained by threading
every entry through setValue (successes remain applied even when later
entries fail — no rollback), and the outcome is a success when no entry
failed and otherwise a failure carrying the error of every failing key in
order. -/
theorem setValues_spec :
    (∀ s : Options, setValues s [] = (s, .ok ())) ∧
    (∀ (s : Options) (k : String) (v : Value) (rest : List (String × Value)),
      (setValues s ((k, v) :: rest)).1 = (setValues ((setValue s k v).1) rest).1) ∧
    (∀ (s : Options) (k : String) (v : Value) (rest : List (String × Value)),
      (setValue s k v).2 = .ok () →
      (setValues s ((k, v) :: rest)).2 = (setValues ((setValue s k v).1) rest).2) ∧
    (∀ (s : Options) (k : String) (v : Value) (rest : List (String × Value)) (e : String),
      (setValue s k v).2 = .error e →
      (setValues s ((k, v) :: rest)).2 =
        .error (e :: (match (setValues ((setValue s k v).1) rest).2 with
                      | .ok _ => []
                      | .error es => es))) := by
  have hfst : ∀ (s : Options) (k : String) (v : Value) (rest : List (String × Value)),
      (setValuesFold s [] ((k, v) :: rest)).1 = (setValuesFold ((setValue s k v).1) [] rest).1 := by
    intro s k v rest
    cases hsv : setValue s k v with
    | mk s1 r =>
      cases r with
      | ok u => simp only [setValuesFold, hsv]
      | error e =>
        simp only [setValuesFold, hsv, List.nil_append]
        rw [setValuesFold_append rest s1 [e]]
  refine ⟨fun s => rfl, ?_, ?_, ?_⟩
  · intro s k v rest
    rw [setValues_eq, setValues_eq]
    simp [hfst s k v rest]
  · intro s k v rest hok
    cases hsv : setValue s k v with
    | mk s1 r =>
      rw [hsv] at hok
      simp only at hok
      subst hok
      rw [setValues_eq, setValues_eq]
      simp only [setValuesFold, hsv]
  · intro s k v rest e herr
    cases hsv : setValue s k v with
    | mk s1 r =>
      rw [hsv] at herr
      simp only at herr
      subst herr
      rw [setValues_eq, setValues_eq]
      simp only [setValuesFold, hsv, List.nil_append]
      rw [setValuesFold_append rest s1 [e]]
      cases (setValuesFold s1 [] rest).2 <;> simp

/-- C7 witness: a bulk set whose first key succeeds and whose second key
is undeclared — the succeeded key remains applied and the outcome lists
exactly the failing key's error. -/
theorem setValues_spec_witness :
    (setValues C7state [("alpha", Value.num 3), ("b", Value.num 2)]).1.values =
      mapSet C7state.values "alpha" (Value.num 3) ∧
    (setValues C7state [("alpha", Value.num 3), ("b", Value.num 2)]).2 =
      .error ["Tried to set an option (b) that was not declared."] := by
  constructor
  · rw [setValues_spec.2.1 C7state "alpha" (Value.num 3) [("b", Value.num 2)]]
    rfl
  · rw [setValues_spec.2.2.1 C7state "alpha" (Value.num 3) [("b", Value.num 2)] rfl,
      setValues_spec.2.2.2 ((setValue C7state "alpha" (Value.num 3)).1) "b"
        (Value.num 2) [] "Tried to set an option (b) that was not declared." rfl]
    rfl

end TypedocOptions
